import Mathlib

/-!
Verification of the dual-source audio capture, buffering, format-conversion
and mixing core of the custom-ai-notetaker repository (src/main.cpp and
src/record.cpp), as described by its natural-language specification.

float32 samples are modelled as exact rationals: every operation the code
performs on samples (division by a power of two, addition, multiplication by
a gain, clamping to [-1, 1], halving) is exact in this model.  Machine
int16/int32 samples are modelled as integers; the C++ cast from float to
int16_t is modelled as truncation toward zero.
-/

namespace Notetaker

/-- Clamping as written by every writer loop and by AudioMixer.MixMono:
the C++ expression is max(-1.0f, min(1.0f, x)). -/
def clampUnit (x : ℚ) : ℚ := max (-1) (min 1 x)

/-- Truncation toward zero: the semantics of the C++ cast
static_cast int16_t applied to a float value.  On a rational num/den with
positive den, integer T-division of num by den truncates toward zero. -/
def truncToInt (q : ℚ) : ℤ := q.num.tdiv q.den

/-- Canonical int16-to-float conversion used by the capture loops
(main.cpp line 330 and line 741): division by 32768. -/
def Int16ToFloat (s : ℤ) : ℚ := (s : ℚ) / 32768

/-- The writer float-to-int16 conversion used by every recording mode
(main.cpp lines 1061-1062, 1199-1200, 1209-1210, 1230-1231, 1250-1251,
1341-1342): clamp to [-1, 1], multiply by 32767, cast to int16_t. -/
def FloatToInt16 (x : ℚ) : ℤ := truncToInt (clampUnit x * 32767)

/-- AudioMixer.MixMono (main.cpp lines 958-970): element i of the result is
max(-1, min(1, sample1 + sample2)) where sample1 is stream1[i]*gain1 when i
is in range and 0 otherwise, likewise sample2. -/
def MixMono (stream1 stream2 : List ℚ) (gain1 gain2 : ℚ) : List ℚ :=
  (List.range (max stream1.length stream2.length)).map fun i =>
    clampUnit ((if i < stream1.length then stream1.getD i 0 * gain1 else 0) +
               (if i < stream2.length then stream2.getD i 0 * gain2 else 0))

/-- AudioMixer.MixStereo (main.cpp lines 973-983): result has size
2 * max(len left, len right); slot 2i holds left[i] or 0, slot 2i+1 holds
right[i] or 0. -/
def MixStereo (leftStream rightStream : List ℚ) : List ℚ :=
  ((List.range (max leftStream.length rightStream.length)).map fun i =>
    [if i < leftStream.length then leftStream.getD i 0 else 0,
     if i < rightStream.length then rightStream.getD i 0 else 0]).flatten

/-- AudioMixer.StereoToMono (main.cpp lines 986-1001): the loop advances two
samples at a time; the right sample of the final pair is taken as 0 when the
input length is odd; each output sample is (left + right) * 0.5. -/
def StereoToMono : List ℚ → List ℚ
  | [] => []
  | [left] => [(left + 0) * (1/2)]
  | left :: right :: rest => (left + right) * (1/2) :: StereoToMono rest

/-- AudioMixer.MonoToStereo (main.cpp lines 1004-1014): each sample is
pushed twice. -/
def MonoToStereo : List ℚ → List ℚ
  | [] => []
  | sample :: rest => sample :: sample :: MonoToStereo rest

/-- The payload of one captured packet together with the format information
the capture loop branches on: either the endpoint format tag denotes IEEE
float (WAVE_FORMAT_IEEE_FLOAT, or WAVE_FORMAT_EXTENSIBLE with a float
subformat), or it is integer PCM with the given wBitsPerSample. -/
inductive NativePacketData where
  | ieeeFloat (samples : List ℚ)
  | pcm (bitsPerSample : ℕ) (samples : List ℤ)

/-- One iteration of the packet-processing body of
WASAPILoopbackRecorder.RecordingThreadFunc (main.cpp lines 306-346); the
microphone recorder (lines 720-752) performs the same buffer update.
When framesAvailable is 0 nothing happens; a packet flagged
AUDCLNT_BUFFERFLAGS_SILENT appends framesAvailable * nChannels zeros; an
IEEE-float packet is appended as is; 16-bit PCM is divided by 32768; 32-bit
PCM is divided by 2147483648; any other bit depth matches no branch, so the
buffer is left unchanged and no error is raised. -/
def ProcessPacket (nChannels framesAvailable : ℕ) (silent : Bool)
    (data : NativePacketData) (audioBuffer : List ℚ) : List ℚ :=
  if framesAvailable = 0 then audioBuffer
  else if silent then
    audioBuffer ++ List.replicate (framesAvailable * nChannels) 0
  else
    match data with
    | .ieeeFloat xs => audioBuffer ++ xs
    | .pcm bits xs =>
        if bits = 16 then audioBuffer ++ xs.map (fun v => (v : ℚ) / 32768)
        else if bits = 32 then
          audioBuffer ++ xs.map (fun v => (v : ℚ) / 2147483648)
        else audioBuffer

/-- Atomic operations on one SampleBuffer (the audioBuffer field of a
recorder, guarded by bufferMutex): the capture thread appends a converted
packet (main.cpp lines 311-339), the owning session copies the buffer with
GetAudioData (lines 448-451) and empties it with ClearAudioData (lines
453-456).  Each operation holds the lock for its whole duration, so an
interleaving is a sequence of these operations. -/
inductive BufOp where
  | append (samples : List ℚ)
  | getAudioData
  | clearAudioData

/-- State of one SampleBuffer as seen across an interleaving: audioBuffer is
the shared vector; returned accumulates everything the GetAudioData calls
have handed to the session (the data the session then writes out). -/
structure BufState where
  audioBuffer : List ℚ
  returned : List ℚ

/-- Effect of one atomic SampleBuffer operation. -/
def bufStep (s : BufState) : BufOp → BufState
  | .append xs => { s with audioBuffer := s.audioBuffer ++ xs }
  | .getAudioData => { s with returned := s.returned ++ s.audioBuffer }
  | .clearAudioData => { s with audioBuffer := [] }

/-- Run an interleaving of SampleBuffer operations from the empty buffer. -/
def runBuf (ops : List BufOp) : BufState := ops.foldl bufStep ⟨[], []⟩

/-- Total number of samples the capture thread appended in an
interleaving. -/
def totalAppended (ops : List BufOp) : ℕ :=
  (ops.map fun op => match op with | .append xs => xs.length | _ => 0).sum

/-- An interleaving the mutex permits: the session drains by calling
GetAudioData and then ClearAudioData (main.cpp lines 1188-1189 and
1262-1263), and the capture thread appends a packet between the two calls,
because the lock is released between them. -/
def lostTrace : List BufOp :=
  [.append [1], .getAudioData, .append [2], .clearAudioData]

/-- Result of WASAPIMicrophoneRecorder.GetMicrophoneDevice (main.cpp lines
585-634): either one of the enumerated active capture endpoints, or the
default capture endpoint returned by GetDefaultAudioEndpoint. -/
inductive SelectedMicDevice where
  | endpointDevice (friendlyName : List Char)
  | defaultCaptureDevice
deriving DecidableEq

/-- WASAPIMicrophoneRecorder.GetMicrophoneDevice (main.cpp lines 585-634):
when the selector is non-empty, scan the enumerated active capture endpoints
in order and select the first whose friendly name contains the selector as a
substring (deviceName.find(deviceSubstr) != npos, a case-sensitive match);
otherwise, and when nothing matches, fall back to the default capture
endpoint, which succeeds exactly when such a default exists. -/
def GetMicrophoneDevice (deviceSubstr : List Char)
    (activeCaptureEndpoints : List (List Char)) (defaultCaptureExists : Bool) :
    Option SelectedMicDevice :=
  match (if deviceSubstr = [] then none
         else activeCaptureEndpoints.find? fun nm => decide (deviceSubstr <:+: nm)) with
  | some nm => some (.endpointDevice nm)
  | none => if defaultCaptureExists then some .defaultCaptureDevice else none

/-- The writer loop shared by every recording mode: convert each float
sample of a drained block with clamp-scale-cast and hand the int16 values
to SimpleWAVWriter.writeInt16. -/
def WriteBlock (samples : List ℚ) : List ℤ := samples.map FloatToInt16

/-- record_wasapi_loopback per-iteration output block (main.cpp lines
1333-1346): the drained loopback data is written unmixed. -/
def RecordLoopbackOnlyBlock (audioData : List ℚ) : List ℤ := WriteBlock audioData

/-- record_microphone_only per-iteration output block (main.cpp lines
1055-1065): the drained microphone data is written unmixed. -/
def RecordMicrophoneOnlyBlock (audioData : List ℚ) : List ℤ := WriteBlock audioData

/-- record_dual_audio, DUAL_SEPARATE per-iteration output blocks (main.cpp
lines 1193-1214): each drained block goes unmixed to its own file. -/
def RecordDualSeparateBlocks (loopbackData micData : List ℚ) : List ℤ × List ℤ :=
  (WriteBlock loopbackData, WriteBlock micData)

/-- Channel reduction applied before mixing in record_dual_audio (main.cpp
lines 1219-1222 and 1239-1242): stereo blocks are collapsed with
StereoToMono, mono blocks pass through. -/
def ToMonoIfStereo (channels : ℕ) (data : List ℚ) : List ℚ :=
  if channels = 2 then StereoToMono data else data

/-- record_dual_audio, DUAL_STEREO per-iteration output block (main.cpp
lines 1217-1234): both streams to mono, MixStereo with microphone on the
left and loopback on the right, then the writer conversion. -/
def RecordDualStereoBlock (loopbackChannels micChannels : ℕ)
    (loopbackData micData : List ℚ) : List ℤ :=
  WriteBlock (MixStereo (ToMonoIfStereo micChannels micData)
                        (ToMonoIfStereo loopbackChannels loopbackData))

/-- record_dual_audio, DUAL_MONO per-iteration output block (main.cpp lines
1237-1253): both streams to mono, MixMono with gains 0.7, then the writer
conversion. -/
def RecordDualMonoBlock (loopbackChannels micChannels : ℕ)
    (loopbackData micData : List ℚ) : List ℤ :=
  WriteBlock (MixMono (ToMonoIfStereo micChannels micData)
                      (ToMonoIfStereo loopbackChannels loopbackData)
                      (7/10) (7/10))

/-! Helper lemmas. -/

theorem truncToInt_eq (q : ℚ) : truncToInt q = if 0 ≤ q then ⌊q⌋ else ⌈q⌉ := by
  unfold truncToInt
  split
  · next h =>
    rw [Int.tdiv_eq_ediv (Rat.num_nonneg.mpr h) (Int.natCast_nonneg q.den),
      Rat.floor_def]
  · next h =>
    push_neg at h
    have h1 : q.num.tdiv q.den = -((-q).num.tdiv (-q).den) := by
      rw [Rat.neg_num, Rat.neg_den, Int.neg_tdiv, neg_neg]
    have h2 : (0:ℤ) ≤ (-q).num := Rat.num_nonneg.mpr (by linarith)
    rw [h1, Int.tdiv_eq_ediv h2 (Int.natCast_nonneg (-q).den), ← Rat.floor_def,
      Int.floor_neg, neg_neg]

theorem neg_one_le_clampUnit (x : ℚ) : -1 ≤ clampUnit x := le_max_left _ _

theorem clampUnit_le_one (x : ℚ) : clampUnit x ≤ 1 :=
  max_le (by norm_num) (min_le_left _ _)

theorem clampUnit_eq_self {x : ℚ} (h1 : -1 ≤ x) (h2 : x ≤ 1) : clampUnit x = x := by
  rw [clampUnit, min_eq_right h2, max_eq_right h1]

theorem FloatToInt16_bounds (x : ℚ) :
    -32767 ≤ FloatToInt16 x ∧ FloatToInt16 x ≤ 32767 := by
  have h1 : -1 ≤ clampUnit x := neg_one_le_clampUnit x
  have h2 : clampUnit x ≤ 1 := clampUnit_le_one x
  have hq1 : (-32767 : ℚ) ≤ clampUnit x * 32767 := by nlinarith
  have hq2 : clampUnit x * 32767 ≤ 32767 := by nlinarith
  rw [FloatToInt16, truncToInt_eq]
  split
  · next h =>
    constructor
    · have h0 : (0:ℤ) ≤ ⌊clampUnit x * 32767⌋ := Int.floor_nonneg.mpr h
      omega
    · have hf := Int.floor_le_floor hq2
      rw [show (32767:ℚ) = ((32767:ℤ):ℚ) by norm_num, Int.floor_intCast] at hf
      exact hf
  · next h =>
    push_neg at h
    constructor
    · have hle : ((-32767:ℤ):ℚ) ≤ clampUnit x * 32767 := by push_cast; linarith
      have hc := hle.trans (Int.le_ceil _)
      exact_mod_cast hc
    · have hc : ⌈clampUnit x * 32767⌉ ≤ 0 := Int.ceil_le.mpr (by push_cast; linarith)
      omega

theorem getD_range_map (f : ℕ → ℚ) {n i : ℕ} (h : i < n) :
    ((List.range n).map f).getD i 0 = f i := by
  rw [List.getD_eq_getElem _ _ (by simpa using h)]
  simp

theorem mem_mixMono_bounds (a b : List ℚ) (gA gB y : ℚ)
    (hy : y ∈ MixMono a b gA gB) : -1 ≤ y ∧ y ≤ 1 := by
  rw [MixMono] at hy
  obtain ⟨j, -, rfl⟩ := List.mem_map.mp hy
  exact ⟨neg_one_le_clampUnit _, clampUnit_le_one _⟩

theorem pairFlatten_length (f g : ℕ → ℚ) (n : ℕ) :
    (((List.range n).map fun j => [f j, g j]).flatten).length = 2 * n := by
  induction n with
  | zero => rfl
  | succ m ih =>
    rw [List.range_succ, List.map_append, List.flatten_append, List.length_append, ih]
    simp
    omega

theorem pairFlatten_getD (f g : ℕ → ℚ) (n : ℕ) :
    ∀ i, i < n →
      (((List.range n).map fun j => [f j, g j]).flatten).getD (2*i) 0 = f i ∧
      (((List.range n).map fun j => [f j, g j]).flatten).getD (2*i+1) 0 = g i := by
  induction n with
  | zero => intro i hi; omega
  | succ m ih =>
    intro i hi
    rw [List.range_succ, List.map_append, List.flatten_append]
    rcases Nat.lt_or_ge i m with him | him
    · constructor
      · rw [List.getD_append _ _ _ _ (by rw [pairFlatten_length]; omega)]
        exact (ih i him).1
      · rw [List.getD_append _ _ _ _ (by rw [pairFlatten_length]; omega)]
        exact (ih i him).2
    · have hieq : i = m := by omega
      subst hieq
      constructor
      · rw [List.getD_append_right _ _ _ _ (by rw [pairFlatten_length])]
        rw [pairFlatten_length]
        simp
      · rw [List.getD_append_right _ _ _ _ (by rw [pairFlatten_length]; omega)]
        rw [pairFlatten_length]
        simp [Nat.add_sub_cancel_left]

theorem stereoToMono_length : ∀ xs : List ℚ,
    (StereoToMono xs).length = (xs.length + 1) / 2
  | [] => by simp [StereoToMono]
  | [_] => by simp [StereoToMono]
  | _ :: _ :: rest => by
    have ih := stereoToMono_length rest
    simp only [StereoToMono, List.length_cons, ih]
    omega

theorem getLast?_cons_of_ne_nil {α : Type*} (a : α) {l : List α} (h : l ≠ []) :
    (a :: l).getLast? = l.getLast? := by
  cases l with
  | nil => exact absurd rfl h
  | cons b t => exact List.getLast?_cons_cons

theorem stereoToMono_getLast?_odd : ∀ xs : List ℚ, xs.length % 2 = 1 →
    (StereoToMono xs).getLast? = xs.getLast?.map fun v => v / 2
  | [], h => by simp at h
  | [left], _ => by
    simp only [StereoToMono, List.getLast?_singleton, Option.map_some]
    congr 1
    ring
  | left :: right :: rest, h => by
    have hrest : rest.length % 2 = 1 := by
      simp only [List.length_cons] at h
      omega
    have ih := stereoToMono_getLast?_odd rest hrest
    have hne : rest ≠ [] := by
      intro he
      rw [he] at hrest
      simp at hrest
    have hne2 : StereoToMono rest ≠ [] := by
      intro he
      have hl := stereoToMono_length rest
      rw [he] at hl
      simp only [List.length_nil] at hl
      have : rest.length = 0 := by omega
      exact hne (List.eq_nil_of_length_eq_zero this)
    show ((left + right) * (1/2) :: StereoToMono rest).getLast? = _
    rw [getLast?_cons_of_ne_nil _ hne2, List.getLast?_cons_cons,
      getLast?_cons_of_ne_nil _ hne, ih]

theorem writeBlock_getD_bounds (xs : List ℚ) (i : ℕ) :
    -32767 ≤ (WriteBlock xs).getD i 0 ∧ (WriteBlock xs).getD i 0 ≤ 32767 := by
  by_cases hi : i < (WriteBlock xs).length
  · rw [List.getD_eq_getElem _ _ hi]
    have hmem : (WriteBlock xs)[i] ∈ xs.map FloatToInt16 := List.getElem_mem hi
    obtain ⟨x, -, hx⟩ := List.mem_map.mp hmem
    rw [← hx]
    exact FloatToInt16_bounds x
  · rw [List.getD_eq_default _ _ (le_of_not_lt hi)]
    norm_num

/-! Claim theorems. -/

/-- C1: the claim states that under every interleaving of capture-thread
appends with session drains, where a drain is GetAudioData followed by
ClearAudioData, no sample is lost or duplicated.  This evaluates the
SampleBuffer model on the interleaving lostTrace, in which the capture
thread appends one sample between the GetAudioData and the ClearAudioData
of a single drain: two samples are appended, but only one is returned and
none remain, so the second appended sample is lost and the claimed
conservation equation fails.  The code (main.cpp lines 1188-1189 and
1262-1263) releases bufferMutex between the two calls, so this interleaving
is reachable. -/
theorem drain_get_clear_loses_appended_sample :
    totalAppended lostTrace = 2 ∧
    (runBuf lostTrace).returned = [1] ∧
    (runBuf lostTrace).audioBuffer = [] ∧
    (runBuf lostTrace).returned.length + (runBuf lostTrace).audioBuffer.length ≠
      totalAppended lostTrace :=
  ⟨rfl, rfl, rfl, by decide⟩

/-- C2: MixMono returns a list of length max(len a, len b), its element at
every index i is clamp(-1, 1, a[i]*gainA + b[i]*gainB) with out-of-range
indices contributing 0, and consequently every element lies in [-1, 1]
(indices beyond the result read the default 0, also in range). -/
theorem mixMono_spec (a b : List ℚ) (gA gB : ℚ) :
    (MixMono a b gA gB).length = max a.length b.length ∧
    (∀ i, i < max a.length b.length →
      (MixMono a b gA gB).getD i 0 =
        clampUnit (a.getD i 0 * gA + b.getD i 0 * gB)) ∧
    (∀ i, -1 ≤ (MixMono a b gA gB).getD i 0 ∧ (MixMono a b gA gB).getD i 0 ≤ 1) := by
  refine ⟨by simp [MixMono], ?_, ?_⟩
  · intro i hi
    rw [MixMono, getD_range_map _ hi]
    have h1 : (if i < a.length then a.getD i 0 * gA else 0) = a.getD i 0 * gA := by
      split
      · rfl
      · next h => rw [List.getD_eq_default _ _ (le_of_not_lt h), zero_mul]
    have h2 : (if i < b.length then b.getD i 0 * gB else 0) = b.getD i 0 * gB := by
      split
      · rfl
      · next h => rw [List.getD_eq_default _ _ (le_of_not_lt h), zero_mul]
    rw [h1, h2]
  · intro i
    by_cases hi : i < (MixMono a b gA gB).length
    · rw [List.getD_eq_getElem _ _ hi]
      exact mem_mixMono_bounds a b gA gB _ (List.getElem_mem hi)
    · rw [List.getD_eq_default _ _ (le_of_not_lt hi)]
      norm_num

/-- C2 witness: mixMono_spec instantiated at a = [2], b = [1/2, 2],
gains 1 and 1, index 1. -/
theorem mixMono_spec_witness :
    1 < max ([(2:ℚ)].length) ([(1:ℚ)/2, 2].length) ∧
    (MixMono [2] [1/2, 2] 1 1).getD 1 0 =
      clampUnit (([(2:ℚ)] : List ℚ).getD 1 0 * 1 + ([(1:ℚ)/2, 2] : List ℚ).getD 1 0 * 1) :=
  ⟨by decide, (mixMono_spec [2] [1/2, 2] 1 1).2.1 1 (by decide)⟩

/-- C3: MixStereo returns a list of even length 2 * max(len left, len
right); the element at index 2i is left[i] (0 beyond len left) and the
element at index 2i + 1 is right[i] (0 beyond len right). -/
theorem mixStereo_spec (l r : List ℚ) :
    (MixStereo l r).length = 2 * max l.length r.length ∧
    (MixStereo l r).length % 2 = 0 ∧
    (∀ i, i < max l.length r.length →
      (MixStereo l r).getD (2*i) 0 = l.getD i 0 ∧
      (MixStereo l r).getD (2*i+1) 0 = r.getD i 0) := by
  have hlen : (MixStereo l r).length = 2 * max l.length r.length :=
    pairFlatten_length _ _ _
  refine ⟨hlen, by omega, ?_⟩
  intro i hi
  have h := pairFlatten_getD
    (fun j => if j < l.length then l.getD j 0 else 0)
    (fun j => if j < r.length then r.getD j 0 else 0)
    (max l.length r.length) i hi
  have h1 : (if i < l.length then l.getD i 0 else 0) = l.getD i 0 := by
    split
    · rfl
    · next hil => rw [List.getD_eq_default _ _ (le_of_not_lt hil)]
  have h2 : (if i < r.length then r.getD i 0 else 0) = r.getD i 0 := by
    split
    · rfl
    · next hir => rw [List.getD_eq_default _ _ (le_of_not_lt hir)]
  rw [MixStereo]
  simpa only [h1, h2] using h

/-- C3 witness: mixStereo_spec instantiated at left = [3], right = [],
index 0. -/
theorem mixStereo_spec_witness :
    0 < max ([(3:ℚ)].length) (([] : List ℚ).length) ∧
    ((MixStereo [3] []).getD (2*0) 0 = ([(3:ℚ)] : List ℚ).getD 0 0 ∧
     (MixStereo [3] []).getD (2*0+1) 0 = ([] : List ℚ).getD 0 0) :=
  ⟨by decide, (mixStereo_spec [3] []).2.2 0 (by decide)⟩

/-- C4: StereoToMono inverts MonoToStereo exactly: duplicating each sample
into both channel slots and then averaging each interleaved pair returns
the original list, because (x + x) * (1/2) = x holds exactly. -/
theorem stereoToMono_monoToStereo_roundtrip :
    ∀ xs : List ℚ, StereoToMono (MonoToStereo xs) = xs
  | [] => rfl
  | s :: rest => by
    have ih := stereoToMono_monoToStereo_roundtrip rest
    show (s + s) * (1/2) :: StereoToMono (MonoToStereo rest) = s :: rest
    rw [ih]
    congr 1
    ring

/-- C5: for every int16 sample s, converting to canonical float by dividing
by 32768 and back with the writer conversion (clamp to [-1, 1], multiply by
32767, cast to int16_t with truncation toward zero) lands within 1 of s. -/
theorem int16_roundtrip_within_one (s : ℤ) (h1 : -32768 ≤ s) (h2 : s ≤ 32767) :
    (FloatToInt16 (Int16ToFloat s) - s).natAbs ≤ 1 := by
  have hq1 : (-32768 : ℚ) ≤ (s:ℚ) := by exact_mod_cast h1
  have hq2 : (s:ℚ) ≤ 32767 := by exact_mod_cast h2
  have h32 : (0:ℚ) < 32768 := by norm_num
  have hlo : (-1 : ℚ) ≤ (s:ℚ) / 32768 := by
    rw [le_div_iff₀ h32]
    linarith
  have hhi : (s:ℚ) / 32768 ≤ 1 := by
    rw [div_le_one h32]
    linarith
  have hcl : clampUnit (Int16ToFloat s) = (s:ℚ) / 32768 := by
    rw [Int16ToFloat]
    exact clampUnit_eq_self hlo hhi
  rw [FloatToInt16, hcl, truncToInt_eq]
  have hps : (s:ℚ) / 32768 * 32767 = (s:ℚ) * 32767 / 32768 := by ring
  rw [hps]
  by_cases hs : 0 ≤ s
  · have hqs : (0:ℚ) ≤ (s:ℚ) := by exact_mod_cast hs
    have hp0 : 0 ≤ (s:ℚ) * 32767 / 32768 := by positivity
    rw [if_pos hp0]
    have hub : ⌊(s:ℚ) * 32767 / 32768⌋ ≤ s := by
      have hple : (s:ℚ) * 32767 / 32768 ≤ ((s:ℤ):ℚ) := by
        rw [div_le_iff₀ h32]
        nlinarith
      have hf := Int.floor_le_floor hple
      rwa [Int.floor_intCast] at hf
    have hlb : s - 1 ≤ ⌊(s:ℚ) * 32767 / 32768⌋ := by
      rw [Int.le_floor, le_div_iff₀ h32]
      push_cast
      nlinarith
    omega
  · push_neg at hs
    have hqs : (s:ℚ) < 0 := by exact_mod_cast hs
    have hpneg : (s:ℚ) * 32767 / 32768 < 0 :=
      div_neg_of_neg_of_pos (by nlinarith) h32
    rw [if_neg (not_le.mpr hpneg)]
    have hlb : s ≤ ⌈(s:ℚ) * 32767 / 32768⌉ := by
      have hsp : ((s:ℤ):ℚ) ≤ (s:ℚ) * 32767 / 32768 := by
        rw [le_div_iff₀ h32]
        nlinarith
      have hc := hsp.trans (Int.le_ceil _)
      exact_mod_cast hc
    have hub : ⌈(s:ℚ) * 32767 / 32768⌉ ≤ s + 1 := by
      rw [Int.ceil_le, div_le_iff₀ h32]
      push_cast
      nlinarith
    omega

/-- C5 witness: int16_roundtrip_within_one instantiated at the edge sample
s = -32768. -/
theorem int16_roundtrip_within_one_witness :
    -32768 ≤ (-32768 : ℤ) ∧ (-32768 : ℤ) ≤ 32767 ∧
    (FloatToInt16 (Int16ToFloat (-32768)) - (-32768)).natAbs ≤ 1 :=
  ⟨by decide, by decide, int16_roundtrip_within_one (-32768) (by decide) (by decide)⟩

/-- C6: a packet flagged silent appends exactly framesAvailable * nChannels
samples, all zero, and leaves every previously accumulated sample
unchanged. -/
theorem silent_packet_appends_zeros (nCh frames : ℕ) (data : NativePacketData)
    (buf : List ℚ) :
    ProcessPacket nCh frames true data buf = buf ++ List.replicate (frames * nCh) 0 ∧
    (ProcessPacket nCh frames true data buf).length = buf.length + frames * nCh ∧
    (ProcessPacket nCh frames true data buf).take buf.length = buf := by
  have h : ProcessPacket nCh frames true data buf =
      buf ++ List.replicate (frames * nCh) 0 := by
    rw [ProcessPacket.eq_def]
    split
    · next h0 => simp [h0]
    · simp
  refine ⟨h, ?_, ?_⟩
  · rw [h]
    simp
  · rw [h]
    exact List.take_left buf _

/-- C8 counterexample: a non-silent packet whose format is 24-bit integer
PCM (outside 16-bit int, 32-bit int and float32) is dropped without any
effect and without any error: the buffer is returned unchanged, while the
same packet with a supported 16-bit format is converted and appended.  The
claim says such a packet makes the conversion fail with a FormatUnsupported
error rather than being silently discarded; the code has no error path
there at all (main.cpp lines 313-346). -/
theorem unsupported_format_not_an_error :
    ProcessPacket 2 3 false (.pcm 24 [1000000, -1000000, 2, 3, 4, 5]) [1] = [1] ∧
    ProcessPacket 1 2 false (.pcm 16 [16384, -16384]) [1] = [1, 1/2, -1/2] := by
  constructor
  · rfl
  · show [1] ++ [((16384:ℤ):ℚ) / 32768, ((-16384:ℤ):ℚ) / 32768] = [1, 1/2, -1/2]
    norm_num

/-- C8 amended: for every non-silent packet whose integer bit depth is
neither 16 nor 32, the capture loop leaves the buffer unchanged — the
samples are silently discarded, no FormatUnsupported error is raised, and
the loop continues. -/
theorem unsupported_format_silently_discarded (nCh frames bits : ℕ)
    (xs : List ℤ) (buf : List ℚ) (h16 : bits ≠ 16) (h32 : bits ≠ 32) :
    ProcessPacket nCh frames false (.pcm bits xs) buf = buf := by
  rw [ProcessPacket.eq_def]
  split
  · rfl
  · simp [h16, h32]

/-- C8 amended witness: unsupported_format_silently_discarded instantiated
at a 24-bit packet. -/
theorem unsupported_format_silently_discarded_witness :
    (24 : ℕ) ≠ 16 ∧ (24 : ℕ) ≠ 32 ∧
    ProcessPacket 2 3 false (.pcm 24 [7]) [] = [] :=
  ⟨by decide, by decide,
    unsupported_format_silently_discarded 2 3 24 [7] [] (by decide) (by decide)⟩

/-- C9: in every capture mode the writer conversion clamps each float
sample to [-1, 1] before scaling by 32767 and casting, so every int16
value handed to the WAV writer lies in [-32767, 32767] (out-of-range
indices read the default 0, also in range). -/
theorem written_int16_in_range :
    (∀ data i, -32767 ≤ (RecordLoopbackOnlyBlock data).getD i 0 ∧
      (RecordLoopbackOnlyBlock data).getD i 0 ≤ 32767) ∧
    (∀ data i, -32767 ≤ (RecordMicrophoneOnlyBlock data).getD i 0 ∧
      (RecordMicrophoneOnlyBlock data).getD i 0 ≤ 32767) ∧
    (∀ ld md i, -32767 ≤ ((RecordDualSeparateBlocks ld md).1).getD i 0 ∧
      ((RecordDualSeparateBlocks ld md).1).getD i 0 ≤ 32767) ∧
    (∀ ld md i, -32767 ≤ ((RecordDualSeparateBlocks ld md).2).getD i 0 ∧
      ((RecordDualSeparateBlocks ld md).2).getD i 0 ≤ 32767) ∧
    (∀ lc mc ld md i, -32767 ≤ (RecordDualStereoBlock lc mc ld md).getD i 0 ∧
      (RecordDualStereoBlock lc mc ld md).getD i 0 ≤ 32767) ∧
    (∀ lc mc ld md i, -32767 ≤ (RecordDualMonoBlock lc mc ld md).getD i 0 ∧
      (RecordDualMonoBlock lc mc ld md).getD i 0 ≤ 32767) :=
  ⟨fun data i => writeBlock_getD_bounds data i,
   fun data i => writeBlock_getD_bounds data i,
   fun ld _ i => writeBlock_getD_bounds ld i,
   fun _ md i => writeBlock_getD_bounds md i,
   fun _ _ _ _ i => writeBlock_getD_bounds _ i,
   fun _ _ _ _ i => writeBlock_getD_bounds _ i⟩

/-- C10: on an input of odd length n, StereoToMono returns (n + 1) / 2
samples (the value of the ceiling of n / 2), and the final output sample,
whose missing right-channel partner is taken as 0, equals the final input
sample divided by 2. -/
theorem stereoToMono_odd_input (xs : List ℚ) (h : xs.length % 2 = 1) :
    (StereoToMono xs).length = (xs.length + 1) / 2 ∧
    (StereoToMono xs).getLast? = xs.getLast?.map fun v => v / 2 :=
  ⟨stereoToMono_length xs, stereoToMono_getLast?_odd xs h⟩

/-- C10 witness: stereoToMono_odd_input instantiated at [1, 2, 3]. -/
theorem stereoToMono_odd_input_witness :
    ([1, 2, 3] : List ℚ).length % 2 = 1 ∧
    ((StereoToMono [1, 2, 3]).length = (([1, 2, 3] : List ℚ).length + 1) / 2 ∧
     (StereoToMono [1, 2, 3]).getLast? = ([1, 2, 3] : List ℚ).getLast?.map fun v => v / 2) :=
  ⟨by decide, stereoToMono_odd_input [1, 2, 3] (by decide)⟩

/-- C7: for a non-empty selector, GetMicrophoneDevice matches the selector
case-sensitively as a substring of the enumerated capture endpoint names;
when some name matches, one of the matching enumerated endpoints (the
first) is selected, and when none matches, it falls back silently to the
default capture endpoint and succeeds whenever that default exists. -/
theorem micDevice_selector_behavior (substr : List Char)
    (endpoints : List (List Char)) (defaultExists : Bool) (hne : substr ≠ []) :
    ((∃ nm ∈ endpoints, substr <:+: nm) →
      ∃ nm ∈ endpoints, substr <:+: nm ∧
        GetMicrophoneDevice substr endpoints defaultExists =
          some (.endpointDevice nm)) ∧
    ((∀ nm ∈ endpoints, ¬ (substr <:+: nm)) →
      GetMicrophoneDevice substr endpoints true = some .defaultCaptureDevice) := by
  constructor
  · rintro ⟨nm0, hmem0, hinf0⟩
    have hfind : (endpoints.find? fun nm => decide (substr <:+: nm)).isSome := by
      rw [List.find?_isSome]
      exact ⟨nm0, hmem0, by simpa using hinf0⟩
    obtain ⟨nm, hnm⟩ := Option.isSome_iff_exists.mp hfind
    refine ⟨nm, List.mem_of_find?_eq_some hnm, ?_, ?_⟩
    · simpa using List.find?_some hnm
    · simp only [GetMicrophoneDevice, if_neg hne, hnm]
  · intro hall
    have hfind : (endpoints.find? fun nm => decide (substr <:+: nm)) = none :=
      List.find?_eq_none.mpr fun x hx => by simpa using hall x hx
    simp only [GetMicrophoneDevice, if_neg hne, hfind, if_pos]

/-- C7 witness: micDevice_selector_behavior instantiated with selector
"ic" against the single endpoint name "Mic", and selector "x" against the
same list. -/
theorem micDevice_selector_behavior_witness :
    (['i', 'c'] : List Char) ≠ [] ∧
    (∃ nm ∈ [['M', 'i', 'c']], ['i', 'c'] <:+: nm ∧
      GetMicrophoneDevice ['i', 'c'] [['M', 'i', 'c']] true =
        some (.endpointDevice nm)) ∧
    GetMicrophoneDevice ['x'] [['M', 'i', 'c']] true =
      some .defaultCaptureDevice :=
  ⟨by decide,
   (micDevice_selector_behavior ['i', 'c'] [['M', 'i', 'c']] true (by decide)).1
     ⟨['M', 'i', 'c'], by decide, by decide⟩,
   (micDevice_selector_behavior ['x'] [['M', 'i', 'c']] true (by decide)).2
     (by decide)⟩

end Notetaker
